import Mathlib

/-!
Shallow embedding of the registry-resolution and package-state engine of
vscode-private-extension-manager, covering `Package` construction and state
(`src/extension/src/workspace.ts`), semantic-version handling, the release
channel lookup (`releaseChannel.ts`), `Registry.getPackage` and pagination
(`Registry.ts`), registry deduplication (`RegistryProvider.ts`), the
installed-extension cache (`extensionInfo.ts`), and multi-registry lookup
(`findPackage.ts`).  Definitions are translated from the TypeScript source;
JavaScript semantics (truthiness of empty strings, relational comparison of
objects falling back to string comparison) are modelled explicitly where the
source relies on them.
-/

/-! ## Character and string utilities

JavaScript compares strings by UTF-16 code units.  All strings appearing in
the claims are ASCII, so comparing Lean `Char` code points is faithful. -/

/-- Lexicographic order on character lists by code point: the comparison that
JavaScript performs when relational operators are applied to two strings. -/
def charListLt : List Char → List Char → Bool
  | [], [] => false
  | [], _ :: _ => true
  | _ :: _, [] => false
  | a :: as, b :: bs =>
    if a.val < b.val then true
    else if b.val < a.val then false
    else charListLt as bs

/-- JavaScript string comparison `a < b`. -/
def jsStringLt (a b : String) : Bool := charListLt a.data b.data

/-- Three-way comparison on character lists by code point (used for comparing
alphanumeric prerelease identifiers in semantic versioning). -/
def charListCompare : List Char → List Char → Ordering
  | [], [] => .eq
  | [], _ :: _ => .lt
  | _ :: _, [] => .gt
  | a :: as, b :: bs =>
    if a.val < b.val then .lt
    else if b.val < a.val then .gt
    else charListCompare as bs

/-- `listStartsWith p l` is true iff `p` is an initial segment of `l`. -/
def listStartsWith : List Char → List Char → Bool
  | [], _ => true
  | _ :: _, [] => false
  | a :: as, b :: bs => a = b && listStartsWith as bs

/-- JavaScript `s.endsWith(suffix)`. -/
def strEndsWith (s suffix : String) : Bool :=
  listStartsWith suffix.data.reverse s.data.reverse

/-- Splits a character list at every occurrence of the separator `c`. -/
def splitCharList (c : Char) : List Char → List (List Char)
  | [] => [[]]
  | x :: xs =>
    let rest := splitCharList c xs
    if x = c then [] :: rest
    else
      match rest with
      | h :: t => (x :: h) :: t
      | [] => [[x]]

/-- Splits a string on a separator character. -/
def splitString (c : Char) (s : String) : List String :=
  (splitCharList c s.data).map (fun l => ⟨l⟩)

/-- Breaks a character list at the first occurrence of `c`: returns the part
before it and, when `c` occurs, the part after it. -/
def breakAtChar (c : Char) : List Char → List Char × Option (List Char)
  | [] => ([], none)
  | x :: xs =>
    if x = c then ([], some xs)
    else
      let (p, r) := breakAtChar c xs
      (x :: p, r)

/-! ## Semantic versions

Model of the `semver` library objects used by the source (`SemVer` with
numeric `major.minor.patch` and an optional dot-separated prerelease).
Build metadata does not participate in precedence and is dropped by parsing.
-/

structure SemVer where
  major : Nat
  minor : Nat
  patch : Nat
  prerelease : List String
deriving DecidableEq, Repr

def semverZero : SemVer := ⟨0, 0, 0, []⟩

/-- `SemVer.toString` / `SemVer.version`: the normalized version string. -/
def SemVer.render (v : SemVer) : String :=
  let base := toString v.major ++ "." ++ toString v.minor ++ "." ++ toString v.patch
  match v.prerelease with
  | [] => base
  | pre => base ++ "-" ++ String.intercalate "." pre

/-- A nonempty, all-digit identifier (numeric prerelease identifier). -/
def isNumericIdent (s : String) : Bool :=
  !s.data.isEmpty && s.data.all (fun c => c.isDigit)

/-- Numeric value of an all-digit character list. -/
def digitsToNat (l : List Char) : Nat :=
  l.foldl (fun n c => n * 10 + (c.toNat - '0'.toNat)) 0

/-- Semantic-versioning comparison of two prerelease identifiers: numeric
identifiers compare numerically and are lower than alphanumeric ones;
alphanumeric identifiers compare in ASCII order. -/
def identCompare (a b : String) : Ordering :=
  if isNumericIdent a && isNumericIdent b then compare (digitsToNat a.data) (digitsToNat b.data)
  else if isNumericIdent a then .lt
  else if isNumericIdent b then .gt
  else charListCompare a.data b.data

/-- Semantic-versioning comparison of two (nonempty) prerelease lists:
identifier by identifier, a shorter list preceding any extension of it. -/
def preListCompare : List String → List String → Ordering
  | [], [] => .eq
  | [], _ :: _ => .lt
  | _ :: _, [] => .gt
  | a :: as, b :: bs =>
    match identCompare a b with
    | .eq => preListCompare as bs
    | o => o

/-- Semantic-versioning precedence of two versions: numeric components in
order, then a release preceding nothing and following any of its prereleases. -/
def semverCompare (a b : SemVer) : Ordering :=
  match compare a.major b.major with
  | .lt => .lt
  | .gt => .gt
  | .eq =>
    match compare a.minor b.minor with
    | .lt => .lt
    | .gt => .gt
    | .eq =>
      match compare a.patch b.patch with
      | .lt => .lt
      | .gt => .gt
      | .eq =>
        match a.prerelease, b.prerelease with
        | [], [] => .eq
        | [], _ :: _ => .gt
        | _ :: _, [] => .lt
        | as, bs => preListCompare as bs

/-- `semver.gt`: `a` is newer than `b` in semantic-versioning precedence. -/
def semverGt (a b : SemVer) : Bool := semverCompare a b == .gt

/-- `semver.lt`. -/
def semverLt (a b : SemVer) : Bool := semverCompare a b == .lt

/-- A prerelease identifier: nonempty, ASCII alphanumerics and hyphens. -/
def isValidIdent (s : String) : Bool :=
  !s.data.isEmpty && s.data.all (fun c => c.isAlphanum || c = '-')

/-- `semver.parse`: parses `major.minor.patch` with an optional
`-prerelease.ids` part and optional `+build` metadata (dropped); returns
`none` for anything else, e.g. `parseSemVer "banana" = none`. -/
def parseSemVer (s : String) : Option SemVer :=
  let noBuild := (breakAtChar '+' s.data).1
  let (mainPart, prePart) := breakAtChar '-' noBuild
  let nums := splitCharList '.' mainPart
  match nums with
  | [ma, mi, pa] =>
    if ma.isEmpty || mi.isEmpty || pa.isEmpty then none
    else if !(ma.all (·.isDigit) && mi.all (·.isDigit) && pa.all (·.isDigit)) then none
    else
      let pre : Option (List String) :=
        match prePart with
        | none => some []
        | some rest =>
          let ids := (splitCharList '.' rest).map (fun l => (⟨l⟩ : String))
          if ids.all isValidIdent then some ids else none
      match pre with
      | some p => some ⟨digitsToNat ma, digitsToNat mi, digitsToNat pa, p⟩
      | none => none
  | _ => none

/-- JavaScript relational comparison `a > b` applied to two `SemVer` objects:
neither operand has a primitive `valueOf`, so both are converted with
`toString()` and the version strings are compared as strings.  This is what
`this.version > this.installedVersion` in `Package.isUpdateAvailable` and
`extension.version > pkg.version` in `didExtensionUpdate` actually compute. -/
def jsSemVerGt (a b : SemVer) : Bool := jsStringLt b.render a.render

/-! ## Untyped JSON values and manifest validation

The source validates untrusted registry metadata with io-ts codecs
(`typeUtil.ts`, `options`, `assertType`).  We model decoded JSON and the two
schemas used by the `Package` constructor: the required/optional NPM fields
(`PackageManifest`) and the extension marker (`VSCodeExtensionFields`,
`engines.vscode : string`). -/

inductive JValue where
  | jnull
  | jbool (b : Bool)
  | jnum (n : Int)
  | jstr (s : String)
  | jarr (items : List JValue)
  | jobj (fields : List (String × JValue))

/-- First-match lookup in a JSON object field list. -/
def jlookup : List (String × JValue) → String → Option JValue
  | [], _ => none
  | (k, v) :: rest, key => if k = key then some v else jlookup rest key

/-- Property access on a JSON value (objects only). -/
def getField (j : JValue) (key : String) : Option JValue :=
  match j with
  | .jobj fields => jlookup fields key
  | _ => none

def decodeString (j : JValue) : Option String :=
  match j with
  | .jstr s => some s
  | _ => none

def decodeStringArray (j : JValue) : Option (List String) :=
  match j with
  | .jarr items => items.mapM decodeString
  | _ => none

def decodeStringRecord (j : JValue) : Option (List (String × String)) :=
  match j with
  | .jobj fields => fields.mapM (fun kv => (decodeString kv.2).map (fun s => (kv.1, s)))
  | _ => none

/-- Validation of an optional field: success with `none` when the field is
absent, the inner decoder when present (so a present field of the wrong type
is a validation failure, as with io-ts `t.partial`). -/
def decodeOptField (j : JValue) (key : String) (dec : JValue → Option β) : Option (Option β) :=
  match getField j key with
  | none => some none
  | some v => (dec v).map some

/-- The typed result of validating the `PackageManifest` codec of
`workspace.ts`: required `name : string`; optional `displayName`,
`publisher`, `description`, `version` strings, `files : string[]`,
`osSpecificVsix : Record<string, string>`. -/
structure PackageManifest where
  name : String
  displayName : Option String
  publisher : Option String
  description : Option String
  version : Option String
  files : Option (List String)
  osSpecificVsix : Option (List (String × String))
deriving DecidableEq

/-- `assertType(manifest, PackageManifest)` as a decoder: `none` models the
generic `TypeError` raised on validation failure. -/
def decodePackageManifest (j : JValue) : Option PackageManifest :=
  match j with
  | .jobj _ => do
    let nameJ ← getField j "name"
    let name ← decodeString nameJ
    let displayName ← decodeOptField j "displayName" decodeString
    let publisher ← decodeOptField j "publisher" decodeString
    let description ← decodeOptField j "description" decodeString
    let version ← decodeOptField j "version" decodeString
    let files ← decodeOptField j "files" decodeStringArray
    let osSpecificVsix ← decodeOptField j "osSpecificVsix" decodeStringRecord
    pure ⟨name, displayName, publisher, description, version, files, osSpecificVsix⟩
  | _ => none

/-- The `VSCodeExtensionFields` codec: nested required `engines.vscode`
string.  Failure raises `NotAnExtensionError` in the source. -/
def checkEnginesVscode (j : JValue) : Bool :=
  match getField j "engines" with
  | some engines =>
    match getField engines "vscode" with
    | some v => (decodeString v).isSome
    | none => false
  | none => false

/-! ## Package (`workspace.ts`)

`Package` wraps one version-specific manifest.  The constructor validates the
manifest (`PackageManifest` first, then `VSCodeExtensionFields` with
`NotAnExtensionError`), derives the display fields, parses the version
(falling back to `0.0.0`), and computes the `.vsix` artifact selection once.
The installed-state snapshot (`updateState`) is modelled as a function from
the ground truth reported by the extension-info service. -/

inductive ExtensionKind where
  | ui
  | workspace
deriving DecidableEq, Repr

/-- The `ExtensionInfo` ground truth for one installed extension
(`extensionInfo.ts`). -/
structure ExtensionInfo where
  id : String
  extensionKind : ExtensionKind
  version : SemVer
deriving DecidableEq, Repr

/-- The `Result<string>` of artifact file selection. -/
inductive VsixFileResult where
  | success (value : String)
  | failure (message : String)
deriving DecidableEq, Repr

/-- JavaScript truthiness of the stored `vsixFile` string
(`valueOrNull` followed by an `if`): an empty string is falsy. -/
def VsixFileResult.truthy : VsixFileResult → Bool
  | .success v => v != ""
  | .failure _ => false

def missingOsVsixMessage : String :=
  "Manifest is missing .vsix file in osSpecificVsix field for this platform."

def missingVsixMessage : String :=
  "Manifest is missing .vsix file in files field."

/-- First-match lookup in a validated string record. -/
def assocLookup : List (String × String) → String → Option String
  | [], _ => none
  | (k, v) :: rest, key => if k = key then some v else assocLookup rest key

/-- `findVsixFile` from `workspace.ts`.  Note the structure of the source:
the whole selection, including the `osSpecificVsix` branch, is guarded by
`if (manifest.files)`, so a manifest without a `files` field reaches the
final error even when `osSpecificVsix` is present.  Within the map branch,
`map[platform] ?? map["default"]` falls back only when the platform entry is
absent, and the subsequent `if (vsix)` treats an empty string as missing. -/
def findVsixFile (platform : String) (m : PackageManifest) : VsixFileResult :=
  match m.files with
  | some files =>
    match m.osSpecificVsix with
    | some osMap =>
      let vsix :=
        match assocLookup osMap platform with
        | some v => some v
        | none => assocLookup osMap "default"
      match vsix with
      | some v => if v != "" then .success v else .failure missingOsVsixMessage
      | none => .failure missingOsVsixMessage
    | none => findFirstVsixEntry files
  | none => .failure missingVsixMessage
where
  /-- The scan over `files` for the first entry ending in `.vsix`. -/
  findFirstVsixEntry : List String → VsixFileResult
    | [] => .failure missingVsixMessage
    | f :: rest => if strEndsWith f ".vsix" then .success f else findFirstVsixEntry rest

inductive PackageState where
  | available
  | installed
  | installedRemote
  | installedPrerelease
  | updateAvailable
  | invalid
deriving DecidableEq, Repr

/-- The error raised by the `Package` constructor: a generic `TypeError` from
the `PackageManifest` validation, or `NotAnExtensionError` (carrying the
package name) from the `VSCodeExtensionFields` validation. -/
inductive ConstructError where
  | typeError
  | notAnExtension (name : String)
deriving DecidableEq, Repr

def LATEST : String := "latest"

/-- ASCII lower-casing of one character (the identifiers involved are
ASCII). -/
def charToLowerAscii (c : Char) : Char :=
  if 'A' ≤ c ∧ c ≤ 'Z' then Char.ofNat (c.toNat + 32) else c

/-- ASCII lower-casing of a string, on the character list. -/
def strToLower (s : String) : String := ⟨s.data.map charToLowerAscii⟩

/-- `formatExtensionId` from `util.ts`: `publisher.name` lower-cased. -/
def formatExtensionId (publisher name : String) : String :=
  strToLower (publisher ++ "." ++ name)

structure Package where
  name : String
  publisher : String
  isPublisherValid : Bool
  extensionId : String
  displayName : String
  description : String
  version : SemVer
  channel : String
  vsixFileResult : VsixFileResult
  inferredUiExtension : Bool
  isInstalled : Bool
  installedVersion : Option SemVer
  installedExtensionKind : Option ExtensionKind
deriving DecidableEq, Repr

/-- JavaScript `!!manifest.publisher`: present and nonempty. -/
def jsTruthyOptString : Option String → Bool
  | some s => s != ""
  | none => false

/-- The `Package` constructor of `workspace.ts`.  `inferredUi` stands for the
result of the `isUiExtension` heuristic, which depends on the editor
environment and configuration (external collaborators).  The constructor
first validates `PackageManifest` (generic type error), then
`VSCodeExtensionFields` (`NotAnExtensionError`), then derives the fields and
computes the artifact selection once. -/
def constructPackage (platform : String) (inferredUi : Bool) (channel : String)
    (manifest : JValue) : Except ConstructError Package :=
  match decodePackageManifest manifest with
  | none => .error .typeError
  | some m =>
    if checkEnginesVscode manifest then
      let publisher := m.publisher.getD "Unknown"
      .ok
        { name := m.name
          publisher := publisher
          isPublisherValid := jsTruthyOptString m.publisher
          extensionId := formatExtensionId publisher m.name
          displayName := m.displayName.getD m.name
          description := m.description.getD m.name
          version := (m.version.bind parseSemVer).getD semverZero
          channel := channel
          vsixFileResult := findVsixFile platform m
          inferredUiExtension := inferredUi
          isInstalled := false
          installedVersion := none
          installedExtensionKind := none }
    else .error (.notAnExtension m.name)

/-- `Package.updateState`: snapshots the ground truth returned by
`extensionInfo.getExtension(this.extensionId)`. -/
def Package.updateState (pkg : Package) (extension : Option ExtensionInfo) : Package :=
  match extension with
  | some e =>
    { pkg with
      isInstalled := true
      installedExtensionKind := some e.extensionKind
      installedVersion := some e.version }
  | none =>
    { pkg with
      isInstalled := false
      installedExtensionKind := none
      installedVersion := none }

/-- `Package.isUiExtension`: the installed extension kind overrides the
inferred one. -/
def Package.isUiExtension (pkg : Package) : Bool :=
  match pkg.installedExtensionKind with
  | some k => k == .ui
  | none => pkg.inferredUiExtension

/-- `Package.isUpdateAvailable`:
`!!this.installedVersion && this.version > this.installedVersion`, where `>`
is the JavaScript relational comparison of the two `SemVer` objects (string
comparison of their rendered versions, see `jsSemVerGt`). -/
def Package.isUpdateAvailable (pkg : Package) : Bool :=
  match pkg.installedVersion with
  | some installed => jsSemVerGt pkg.version installed
  | none => false

/-- `Package.state`. -/
def Package.state (pkg : Package) : PackageState :=
  if pkg.isPublisherValid && pkg.vsixFileResult.truthy then
    if pkg.isUpdateAvailable then .updateAvailable
    else if pkg.isInstalled then
      if pkg.channel != LATEST then .installedPrerelease
      else if pkg.isUiExtension then .installed else .installedRemote
    else .available
  else .invalid

/-- `Package.spec`: the NPM specifier `name@version`. -/
def Package.spec (pkg : Package) : String :=
  pkg.name ++ "@" ++ pkg.version.render

/-! ## Release channels (`releaseChannel.ts`) -/

/-- `getReleaseChannel`: the channel configured for an extension id, default
`latest`.  The channels configuration is modelled as the association list the
configuration store holds. -/
def getReleaseChannel (channels : List (String × String)) (publisher name : String) : String :=
  (assocLookup channels (formatExtensionId publisher name)).getD LATEST

/-! ## Registry (`Registry.ts`)

`getPackage` resolves a dist-tag or literal version against the validated
package metadata (`PackageVersionData`: a `dist-tags` record and a `versions`
record of version-specific manifests, with an optional `time` record); the
model takes the metadata after the `assertType(metadata, PackageVersionData)`
step, with the per-version manifests still untyped JSON. -/

structure PackageVersionData where
  distTags : List (String × String)
  versions : List (String × JValue)
  time : Option (List (String × String))

/-- The errors `Registry.getPackage` can raise: `VersionMissingError`
(carrying the package name and the missing version) or an error from the
`Package` constructor. -/
inductive GetPackageError where
  | versionMissing (pkg version : String)
  | constructError (e : ConstructError)
deriving DecidableEq, Repr

/-- `lookupVersion` from `Registry.ts`: a dist-tag is first replaced by its
target version, then the (possibly replaced) key is looked up in `versions`;
a missing entry raises `VersionMissingError` with the replaced key. -/
def lookupVersion (metadata : PackageVersionData) (name : String) (versionOrTag : String) :
    Except GetPackageError JValue :=
  let v :=
    match assocLookup metadata.distTags versionOrTag with
    | some target => target
    | none => versionOrTag
  match jlookup metadata.versions v with
  | some result => .ok result
  | none => .error (.versionMissing name v)

/-- `Registry.getPackage`: when no version is requested, the latest release's
publisher is used to look up a per-extension channel override
(`getReleaseChannel`), defaulting to `latest`; the effective channel or
version is then resolved by `lookupVersion` and the manifest wrapped into a
`Package` tracking that channel. -/
def Registry.getPackage (channels : List (String × String)) (platform : String)
    (inferredUi : Bool) (metadata : PackageVersionData) (name : String)
    (requested : Option String) : Except GetPackageError Package :=
  let versionE : Except GetPackageError String :=
    match requested with
    | some v => .ok v
    | none =>
      match lookupVersion metadata name LATEST with
      | .error e => .error e
      | .ok latest =>
        match getField latest "publisher" with
        | some (.jstr p) => .ok (getReleaseChannel channels p name)
        | _ => .ok LATEST
  match versionE with
  | .error e => .error e
  | .ok version =>
    match lookupVersion metadata name version with
    | .error e => .error e
    | .ok manifest =>
      match constructPackage platform inferredUi version manifest with
      | .ok pkg => .ok pkg
      | .error e => .error (.constructError e)

/-! ### Search pagination (`Registry.findMatchingPackages`)

The search transport is modelled as a function from the `from` offset to the
page the server returns.  The source loop runs `while (from < MAX_RESULTS)`,
yields every item of each page, stops after a page when it is empty or
pagination is disabled, and otherwise advances `from` by the page length;
after the loop a warning is shown iff `from >= MAX_RESULTS`.  The embedding
uses a structural fuel argument of `MAX_RESULTS`: every continuing iteration
requires `from < MAX_RESULTS` and strictly increases `from`, so the loop can
run at most `MAX_RESULTS` iterations and the fuel is never exhausted first. -/

def MAX_RESULTS : Nat := 1000

structure SearchOutcome (α : Type) where
  results : List α
  finalFrom : Nat
  requests : Nat
deriving DecidableEq, Repr

def findMatchingPackagesLoop (server : Nat → List α) (enablePagination : Bool) :
    Nat → Nat → SearchOutcome α
  | 0, fromOffset => ⟨[], fromOffset, 0⟩
  | fuel + 1, fromOffset =>
    if fromOffset < MAX_RESULTS then
      let page := server fromOffset
      if page.length = 0 || !enablePagination then ⟨page, fromOffset, 1⟩
      else
        let rest := findMatchingPackagesLoop server enablePagination fuel (fromOffset + page.length)
        ⟨page ++ rest.results, rest.finalFrom, rest.requests + 1⟩
    else ⟨[], fromOffset, 0⟩

def findMatchingPackages (server : Nat → List α) (enablePagination : Bool) : SearchOutcome α :=
  findMatchingPackagesLoop server enablePagination MAX_RESULTS 0

/-- The condition under which the too-many-results warning is shown after the
enumeration. -/
def tooManyResultsWarning (o : SearchOutcome α) : Bool := MAX_RESULTS ≤ o.finalFrom

/-! ### Registry identity (`Registry.equals`) and deduplication
(`RegistryProvider.ts`) -/

inductive RegistrySource where
  | user
  | workspace
deriving DecidableEq, Repr

/-- A search query as configured: a single string or an array of terms. -/
inductive RegQuery where
  | single (s : String)
  | multi (items : List String)
deriving DecidableEq, Repr

structure Registry where
  name : String
  source : RegistrySource
  registryOption : Option String
  query : RegQuery
  enablePagination : Bool
deriving DecidableEq, Repr

/-- `Registry.uri`: `this.options.registry ? Uri.parse(...) : undefined`; an
empty registry string is falsy.  `Uri.parse` followed by `toString` is
modelled as the identity on the configured string. -/
def Registry.uri (r : Registry) : Option String :=
  match r.registryOption with
  | some s => if s = "" then none else some s
  | none => none

/-- `queryEquals`: array queries are joined with spaces before comparison, so
`["foo", "bar"]` equals `"foo bar"`. -/
def queryJoin : RegQuery → String
  | .single s => s
  | .multi items => String.intercalate " " items

def queryEquals (a b : RegQuery) : Bool := queryJoin a == queryJoin b

/-- `Registry.equals`: same pagination flag, same normalized query, and the
same endpoint URI or both unset. -/
def Registry.equals (a b : Registry) : Bool :=
  if a.enablePagination != b.enablePagination then false
  else if !queryEquals a.query b.query then false
  else
    match a.uri, b.uri with
    | some ua, some ub => ua == ub
    | none, none => true
    | _, _ => false

/-- `dedupeRegistries`: the `reduce` in `RegistryProvider.ts`, keeping an
item only when no already-kept item is `equals` to it. -/
def dedupeRegistries (registries : List Registry) : List Registry :=
  registries.foldl
    (fun list item =>
      if (list.find? (fun other => item.equals other)).isSome then list else list ++ [item])
    []

/-- `RegistryProvider.getRegistries`: workspace-folder registries in folder
order, then user registries, then deduplication. -/
def RegistryProvider.getRegistries (folderRegistries : List (List Registry))
    (userRegistries : List Registry) : List Registry :=
  dedupeRegistries (folderRegistries.flatten ++ userRegistries)

/-- Specification-side description of first-occurrence deduplication: keep
the head, drop everything equal to it from the remainder, recurse.  Used to
state that `dedupeRegistries` retains exactly the first occurrence of each
`Registry.equals` class. -/
def keepFirstOccurrences : List Registry → List Registry
  | [] => []
  | x :: xs => x :: keepFirstOccurrences (xs.filter fun y => !(Registry.equals y x))
termination_by l => l.length
decreasing_by
  simp only [List.length_cons]
  exact Nat.lt_succ_of_le (List.length_filter_le _ _)

/-! ## Extension info service (`extensionInfo.ts`) -/

/-- The installed-extension cache: keys are lower-cased extension ids; a
`none` value records that the extension was looked up and is not installed
(distinct from the key being absent). -/
abbrev ExtensionCache := List (String × Option ExtensionInfo)

/-- `clearCacheIf`: deletes every entry whose cached value matches the
predicate, leaving all other entries untouched. -/
def clearCacheIf (p : Option ExtensionInfo → Bool) (cache : ExtensionCache) : ExtensionCache :=
  cache.filter (fun entry => !(p entry.2))

/-- `myExtensionKind`: `vscode.env.remoteName ? Workspace : UI` (JavaScript
truthiness, so an empty remote name also means UI). -/
def myExtensionKind (remoteName : Option String) : ExtensionKind :=
  match remoteName with
  | some s => if s = "" then .ui else .workspace
  | none => .ui

/-- Observable state of an `ExtensionInfoService`: the cache and how many
times the unified `onDidChange` event has fired. -/
structure ExtensionInfoServiceState where
  cache : ExtensionCache
  firedCount : Nat
deriving DecidableEq, Repr

/-- Handler for `vscode.extensions.onDidChange` (the machine the extension
manager runs on): clears entries cached as not installed and entries whose
kind is `myExtensionKind`, then fires the unified change event. -/
def onMyExtensionChanged (remoteName : Option String) (s : ExtensionInfoServiceState) :
    ExtensionInfoServiceState :=
  { cache :=
      clearCacheIf
        (fun c =>
          match c with
          | none => true
          | some info => info.extensionKind == myExtensionKind remoteName)
        s.cache
    firedCount := s.firedCount + 1 }

/-- Handler for the remote helper's change notification: clears entries
cached as not installed and entries whose kind differs from
`myExtensionKind`, then fires the unified change event. -/
def onOtherExtensionChanged (remoteName : Option String) (s : ExtensionInfoServiceState) :
    ExtensionInfoServiceState :=
  { cache :=
      clearCacheIf
        (fun c =>
          match c with
          | none => true
          | some info => info.extensionKind != myExtensionKind remoteName)
        s.cache
    firedCount := s.firedCount + 1 }

/-- `didExtensionUpdate`: re-fetched ground truth missing means a defensive
`false`; otherwise `extension.version > pkg.version`, the JavaScript
relational comparison of the two `SemVer` objects. -/
def didExtensionUpdate (extension : Option ExtensionInfo) (pkg : Package) : Bool :=
  match extension with
  | none => false
  | some e => jsSemVerGt e.version pkg.version

/-! ### `waitForExtensionChange` as a discrete-time model

The source creates a wait promise whose `finished` callback clears the
timeout, disposes the event subscription and resolves; `finished` is invoked
by the first of the event listener and the `setTimeout` callback, and
`Promise.all([task, wait])` then resolves with the task result once both have
resolved.  Logical time is a natural number; `eventTime` is the instant the
unified change event fires (`none` when it never fires), the simulation runs
one tick per instant up to a horizon. -/

structure WaitObs where
  resolved : Bool
  resolveTime : Option Nat
  listenerAttached : Bool
  timerActive : Bool
  disposeTime : Option Nat
deriving DecidableEq, Repr

/-- State right after the wait promise is constructed: unresolved, event
listener subscribed, timeout pending. -/
def waitInit : WaitObs := ⟨false, none, true, true, none⟩

/-- The `finished` callback: clear the timeout, dispose the event listener,
resolve the wait promise. -/
def finishedStep (t : Nat) (w : WaitObs) : WaitObs :=
  if w.resolved then w
  else ⟨true, some t, false, false, some t⟩

/-- One instant of simulated time: the event listener runs if the event fires
now and the subscription is still attached; the timeout callback runs if the
deadline is now and the timer was not cleared. -/
def waitTick (timeout : Nat) (eventTime : Option Nat) (t : Nat) (w : WaitObs) : WaitObs :=
  let w1 := if eventTime == some t && w.listenerAttached then finishedStep t w else w
  if t == timeout && w1.timerActive then finishedStep t w1 else w1

/-- The wait promise observed after simulating instants `0, …, horizon - 1`. -/
def waitRun (timeout : Nat) (eventTime : Option Nat) (horizon : Nat) : WaitObs :=
  (List.range horizon).foldl (fun w t => waitTick timeout eventTime t w) waitInit

/-- `waitForExtensionChange`: the task resolves at `taskTime` with
`taskValue`; the overall promise resolves with the task's value once both the
task and the wait promise have resolved. -/
def waitForExtensionChange (taskTime : Nat) (taskValue : α) (timeout : Nat)
    (eventTime : Option Nat) (horizon : Nat) : α × Option Nat × WaitObs :=
  let w := waitRun timeout eventTime horizon
  (taskValue, w.resolveTime.map (fun wt => max taskTime wt), w)

/-! ## Multi-registry lookup (`findPackage.ts`)

A registry's `getPackage` is modelled at its interface boundary: a function
from the bare package name to either a package or an error with an optional
`statusCode`. -/

inductive RegLookupResult (α : Type) where
  | found (value : α)
  | err (statusCode : Option Int)
deriving DecidableEq, Repr

inductive FindPackageError where
  | transport (statusCode : Option Int)
  | cannotFind (name : String)
deriving DecidableEq, Repr

/-- `tryGetPackage`: a 404 `statusCode` means "the registry does not have the
package" (`none`); any other error is rethrown. -/
def tryGetPackage (response : RegLookupResult α) : Except (Option Int) (Option α) :=
  match response with
  | .found p => .ok (some p)
  | .err code => if code == some 404 then .ok none else .error code

/-- `_findPackage`: try each registry in order; the first package found wins,
a non-404 error propagates, and exhausting the list raises the
cannot-find-in-known-registries error naming the bare package name. -/
def findPackageIn (registries : List (String → RegLookupResult α)) (name : String) :
    Except FindPackageError α :=
  match registries with
  | [] => .error (.cannotFind name)
  | r :: rest =>
    match tryGetPackage (r name) with
    | .error c => .error (.transport c)
    | .ok (some p) => .ok p
    | .ok none => findPackageIn rest name

/-- `stripPublisher`: everything after the first dot, or the whole id when it
has no dot. -/
def stripPublisher (extensionId : String) : String :=
  match (breakAtChar '.' extensionId.data).2 with
  | some rest => ⟨rest⟩
  | none => extensionId

/-- `findPackage`: strip the publisher and search the ordered registry
list. -/
def findPackage (registries : List (String → RegLookupResult α)) (extensionId : String) :
    Except FindPackageError α :=
  findPackageIn registries (stripPublisher extensionId)

/-- Decidable equality for `Except`, so that concrete runs of the fallible
operations can be checked by `decide`. -/
instance {ε α : Type} [DecidableEq ε] [DecidableEq α] : DecidableEq (Except ε α) := fun a b =>
  match a, b with
  | .error e₁, .error e₂ =>
    if h : e₁ = e₂ then isTrue (by rw [h]) else isFalse (fun hc => by cases hc; exact h rfl)
  | .ok v₁, .ok v₂ =>
    if h : v₁ = v₂ then isTrue (by rw [h]) else isFalse (fun hc => by cases hc; exact h rfl)
  | .error _, .ok _ => isFalse (fun hc => Except.noConfusion hc)
  | .ok _, .error _ => isFalse (fun hc => Except.noConfusion hc)

/-! ## Concrete fixtures used by several results -/

/-- A well-formed extension manifest with the given name and version string
(publisher `Test`, `engines.vscode` marker, a `.vsix` entry in `files`),
mirroring the fixtures of the package test suite. -/
def mkExtensionManifest (name version : String) : JValue :=
  .jobj
    [("name", .jstr name), ("publisher", .jstr "Test"), ("version", .jstr version),
     ("engines", .jobj [("vscode", .jstr "1.38.0")]), ("files", .jarr [.jstr "extension.vsix"])]

/-- Registry metadata for package `foo`: dist-tags `latest -> 1.0.0` and
`insiders -> 2.0.0-beta.0`, with both versions in the versions table. -/
def fooMetadata : PackageVersionData :=
  { distTags := [("latest", "1.0.0"), ("insiders", "2.0.0-beta.0")]
    versions :=
      [("1.0.0", mkExtensionManifest "foo" "1.0.0"),
       ("2.0.0-beta.0", mkExtensionManifest "foo" "2.0.0-beta.0")]
    time := none }

/-- Specification-side restatement of the artifact selection, as amended by
the counterexample: selection happens only under a present `files` field;
with the map present the platform entry is preferred, then the `"default"`
entry, an empty string counting as missing; without the map the first `files`
entry ending in `.vsix` is selected; errors otherwise. -/
def findVsixSelectionSpec (platform : String) (m : PackageManifest) : VsixFileResult :=
  match m.files, m.osSpecificVsix with
  | none, _ => .failure missingVsixMessage
  | some _, some osMap =>
    let entry :=
      if (assocLookup osMap platform).isSome then assocLookup osMap platform
      else assocLookup osMap "default"
    match entry with
    | some v => if v = "" then .failure missingOsVsixMessage else .success v
    | none => .failure missingOsVsixMessage
  | some fs, none =>
    match fs.find? (fun f => strEndsWith f ".vsix") with
    | some f => .success f
    | none => .failure missingVsixMessage

def c3Manifest : JValue :=
  .jobj [("name", .jstr "test-package"), ("publisher", .jstr "Test"), ("version", .jstr "1.2.3")]

def c10Manifest : JValue :=
  .jobj [("name", .jstr "foo"), ("version", .jstr "banana"),
         ("engines", .jobj [("vscode", .jstr "1.38.0")])]

/-- The instant at which `finished` runs: the change event if it fires no
later than the timeout, the timeout otherwise (also when the event never
fires). -/
def waitDeadline (timeout : Nat) (eventTime : Option Nat) : Nat :=
  match eventTime with
  | none => timeout
  | some e => min e timeout

/-- The wait promise after `finished` ran at instant `t`. -/
def waitFinished (t : Nat) : WaitObs := ⟨true, some t, false, false, some t⟩

/-! ## Results -/

/-- C1: the claim that `isUpdateAvailable` (and the `UpdateAvailable` state)
holds iff the manifest version is greater than the installed version in
semantic-versioning precedence, and that `didExtensionUpdate` compares
semantically, fails on the code.  `this.version > this.installedVersion` and
`extension.version > pkg.version` apply the JavaScript relational operator to
two `SemVer` objects, which compares their rendered version strings: with
version `1.10.0` and installed version `1.9.0` the package is semantically
newer, yet `isUpdateAvailable` is `false` and the state is `installed`, and
symmetrically `didExtensionUpdate` is `false` after updating `1.9.0` to
`1.10.0`.  This contradicts the documented meaning of both members
("represents a newer version", "is newer than"). -/
theorem isUpdateAvailable_string_order_bug :
    (constructPackage "linux" true LATEST (mkExtensionManifest "foo" "1.10.0")).map
        (fun p =>
          ((p.updateState (some ⟨"test.foo", .ui, ⟨1, 9, 0, []⟩⟩)).isUpdateAvailable,
           (p.updateState (some ⟨"test.foo", .ui, ⟨1, 9, 0, []⟩⟩)).state,
           p.version))
      = .ok (false, PackageState.installed, ⟨1, 10, 0, []⟩) ∧
    semverGt ⟨1, 10, 0, []⟩ ⟨1, 9, 0, []⟩ = true ∧
    (constructPackage "linux" true LATEST (mkExtensionManifest "foo" "1.9.0")).map
        (fun p => didExtensionUpdate (some ⟨"test.foo", .ui, ⟨1, 10, 0, []⟩⟩) p)
      = .ok false ∧
    semverGt ⟨1, 10, 0, []⟩ ⟨1, 9, 0, []⟩ = true := by
  refine ⟨by decide, by decide, by decide, by decide⟩

/-- C2, counterexample: the claimed selection fails on the code in two ways.
A manifest with `files: ["x.bin"]` and no `osSpecificVsix` does not resolve
to `"x.bin"`: only entries ending in `.vsix` are recognized, so an error is
recorded.  And the `osSpecificVsix` map is not consulted "regardless of the
files field": without `files` the selection falls through to the missing-file
error even when the map has an entry for the current platform. -/
theorem findVsixFile_claim_counterexample :
    findVsixFile "linux" ⟨"pkg", none, none, none, none, some ["x.bin"], none⟩
        = .failure missingVsixMessage ∧
    (∀ s, findVsixFile "linux" ⟨"pkg", none, none, none, none, some ["x.bin"], none⟩
        ≠ .success s) ∧
    findVsixFile "linux" ⟨"pkg", none, none, none, none, none, some [("linux", "a.vsix")]⟩
        = .failure missingVsixMessage := by
  refine ⟨by decide, ?_, by decide⟩
  intro s h
  exact absurd (by decide : findVsixFile "linux"
    ⟨"pkg", none, none, none, none, some ["x.bin"], none⟩ = .failure missingVsixMessage)
    (by simp [h])

theorem findFirstVsixEntry_eq_find (fs : List String) :
    findVsixFile.findFirstVsixEntry fs =
      match fs.find? (fun f => strEndsWith f ".vsix") with
      | some f => .success f
      | none => .failure missingVsixMessage := by
  induction fs with
  | nil => rfl
  | cons f rest ih =>
    by_cases h : strEndsWith f ".vsix" = true
    · simp [findVsixFile.findFirstVsixEntry, List.find?, h]
    · simp only [Bool.not_eq_true] at h
      simp [findVsixFile.findFirstVsixEntry, List.find?, h, ih]

/-- C2, amended: the artifact selection equals its amended specification
(`findVsixSelectionSpec`), and the stored selection result is never touched
by a state refresh — it is computed once at construction. -/
theorem findVsixFile_selection_characterization (platform : String) (m : PackageManifest) :
    findVsixFile platform m = findVsixSelectionSpec platform m ∧
    (∀ (pkg : Package) (ext : Option ExtensionInfo),
      (pkg.updateState ext).vsixFileResult = pkg.vsixFileResult) := by
  constructor
  · obtain ⟨nm, dn, pub, desc, ver, files, osv⟩ := m
    cases files with
    | none => rfl
    | some fs =>
      cases osv with
      | none => exact findFirstVsixEntry_eq_find fs
      | some osMap =>
        show (match (match assocLookup osMap platform with
                     | some v => some v
                     | none => assocLookup osMap "default") with
              | some v =>
                if v != "" then VsixFileResult.success v
                else VsixFileResult.failure missingOsVsixMessage
              | none => VsixFileResult.failure missingOsVsixMessage)
            = findVsixSelectionSpec platform ⟨nm, dn, pub, desc, ver, some fs, some osMap⟩
        rcases hp : assocLookup osMap platform with _ | v
        · simp [findVsixSelectionSpec, hp]
        · simp [findVsixSelectionSpec, hp]
  · intro pkg ext
    cases ext <;> rfl

/-- C3, counterexample: a manifest missing `engines.vscode` and also missing
the required `name` field does not raise `NotAnExtensionError`: the
`PackageManifest` validation runs first and raises the generic type error. -/
theorem constructPackage_missing_name_type_error :
    checkEnginesVscode (JValue.jobj []) = false ∧
    constructPackage "linux" true LATEST (JValue.jobj []) = .error ConstructError.typeError ∧
    ∀ n, constructPackage "linux" true LATEST (JValue.jobj [])
        ≠ .error (ConstructError.notAnExtension n) := by
  refine ⟨by decide, by decide, ?_⟩
  intro n h
  have h2 : constructPackage "linux" true LATEST (JValue.jobj [])
      = .error ConstructError.typeError := by decide
  rw [h2] at h
  exact ConstructError.noConfusion (Except.error.inj h)

/-- C3, amended: for every manifest that passes the core `PackageManifest`
validation but lacks `engines.vscode`, construction raises
`NotAnExtensionError` (naming the package); when core fields are missing or
ill-typed the generic type error is raised first instead. -/
theorem constructPackage_not_an_extension (platform : String) (iu : Bool) (ch : String)
    (j : JValue) (m : PackageManifest) (hdec : decodePackageManifest j = some m)
    (heng : checkEnginesVscode j = false) :
    constructPackage platform iu ch j = .error (.notAnExtension m.name) := by
  unfold constructPackage
  rw [hdec]
  simp [heng]

theorem constructPackage_not_an_extension_witness :
    constructPackage "linux" true LATEST c3Manifest
      = .error (.notAnExtension "test-package") :=
  constructPackage_not_an_extension "linux" true LATEST c3Manifest
    ⟨"test-package", none, some "Test", none, some "1.2.3", none, none⟩ (by decide) (by decide)

/-- C10: a manifest that passes validation but whose `version` is absent, or
present but not parseable as a semantic version, still constructs a package;
the version falls back to `0.0.0`, so the NPM specifier is `name@0.0.0` (and
every state comparison uses `0.0.0`). -/
theorem constructPackage_default_version (platform : String) (iu : Bool) (ch : String)
    (j : JValue) (m : PackageManifest)
    (hdec : decodePackageManifest j = some m) (heng : checkEnginesVscode j = true)
    (hv : m.version = none ∨ ∃ v, m.version = some v ∧ parseSemVer v = none) :
    ∃ pkg : Package, constructPackage platform iu ch j = .ok pkg ∧
      pkg.version = semverZero ∧ pkg.spec = m.name ++ "@0.0.0" ∧ pkg.name = m.name := by
  unfold constructPackage
  rw [hdec]
  simp only [heng, if_true]
  have hver : (m.version.bind parseSemVer).getD semverZero = semverZero := by
    rcases hv with h | ⟨v, hv1, hv2⟩
    · simp [h]
    · simp [hv1, hv2]
  refine ⟨_, rfl, hver, ?_, rfl⟩
  show m.name ++ "@" ++ SemVer.render ((m.version.bind parseSemVer).getD semverZero)
      = m.name ++ "@0.0.0"
  rw [hver, show SemVer.render semverZero = "0.0.0" from by decide, String.append_assoc,
    show ("@" ++ "0.0.0" : String) = "@0.0.0" from by decide]

theorem constructPackage_default_version_witness :
    ∃ pkg : Package, constructPackage "linux" true LATEST c10Manifest = .ok pkg ∧
      pkg.version = semverZero ∧ pkg.spec = "foo" ++ "@0.0.0" ∧ pkg.name = "foo" :=
  constructPackage_default_version "linux" true LATEST c10Manifest
    ⟨"foo", none, none, none, some "banana", none, none⟩ (by decide) (by decide)
    (Or.inr ⟨"banana", by decide, by decide⟩)

/-- C4: for `foo` with dist-tags `latest -> 1.0.0`, `insiders -> 2.0.0-beta.0`
and both versions present: `getPackage` with no requested version returns the
`1.0.0` package tracking `latest`; with a channel override `insiders`
configured for `test.foo` it returns `2.0.0-beta.0` tracking `insiders`; and
a requested channel or version raises `VersionMissingError` carrying `foo`
and exactly the requested string precisely when it is neither a dist-tag key
nor a key of the versions table (e.g. `nightly`). -/
theorem getPackage_channel_fallback :
    ((Registry.getPackage [] "linux" true fooMetadata "foo" none).map
        (fun p => (p.version, p.channel))
      = .ok (⟨1, 0, 0, []⟩, LATEST)) ∧
    ((Registry.getPackage [("test.foo", "insiders")] "linux" true fooMetadata "foo" none).map
        (fun p => (p.version, p.channel))
      = .ok (⟨2, 0, 0, ["beta", "0"]⟩, "insiders")) ∧
    (∀ v : String,
      Registry.getPackage [] "linux" true fooMetadata "foo" (some v)
          = .error (.versionMissing "foo" v)
        ↔ (v ≠ "latest" ∧ v ≠ "insiders" ∧ v ≠ "1.0.0" ∧ v ≠ "2.0.0-beta.0")) := by
  refine ⟨by decide, by decide, ?_⟩
  intro v
  by_cases h1 : v = "latest"
  · subst h1
    exact ⟨fun h => absurd h (by decide), fun ⟨ha, _⟩ => absurd rfl ha⟩
  by_cases h2 : v = "insiders"
  · subst h2
    exact ⟨fun h => absurd h (by decide), fun ⟨_, ha, _⟩ => absurd rfl ha⟩
  by_cases h3 : v = "1.0.0"
  · subst h3
    exact ⟨fun h => absurd h (by decide), fun ⟨_, _, ha, _⟩ => absurd rfl ha⟩
  by_cases h4 : v = "2.0.0-beta.0"
  · subst h4
    exact ⟨fun h => absurd h (by decide), fun ⟨_, _, _, ha⟩ => absurd rfl ha⟩
  have n1 : ¬("latest" = v) := fun h => h1 h.symm
  have n2 : ¬("insiders" = v) := fun h => h2 h.symm
  have n3 : ¬("1.0.0" = v) := fun h => h3 h.symm
  have n4 : ¬("2.0.0-beta.0" = v) := fun h => h4 h.symm
  have hlhs : Registry.getPackage [] "linux" true fooMetadata "foo" (some v)
      = .error (.versionMissing "foo" v) := by
    simp [Registry.getPackage, lookupVersion, fooMetadata, assocLookup, jlookup, n1, n2, n3, n4]
  simp [hlhs, h1, h2, h3, h4]

theorem clearCacheIf_mem (p : Option ExtensionInfo → Bool) (cache : ExtensionCache)
    (k : String) (v : Option ExtensionInfo) :
    (k, v) ∈ clearCacheIf p cache ↔ (k, v) ∈ cache ∧ p v = false := by
  simp [clearCacheIf, List.mem_filter]

/-- C7: a change event for the machine the extension manager runs on removes
exactly the cache entries that are cached-as-absent or attributed to that
machine's execution kind, leaving entries of the other kind verbatim (the
filter equation); the complementary event removes exactly the complementary
subset; each handler fires the unified change event once. -/
theorem extension_cache_invalidation (remoteName : Option String)
    (s : ExtensionInfoServiceState) :
    ((onMyExtensionChanged remoteName s).cache =
        s.cache.filter (fun e =>
          match e.2 with
          | none => false
          | some info => info.extensionKind != myExtensionKind remoteName)) ∧
    (∀ (k : String) (v : Option ExtensionInfo),
      (k, v) ∈ (onMyExtensionChanged remoteName s).cache ↔
        ((k, v) ∈ s.cache ∧
          ∃ info, v = some info ∧ info.extensionKind ≠ myExtensionKind remoteName)) ∧
    ((onMyExtensionChanged remoteName s).firedCount = s.firedCount + 1) ∧
    ((onOtherExtensionChanged remoteName s).cache =
        s.cache.filter (fun e =>
          match e.2 with
          | none => false
          | some info => info.extensionKind == myExtensionKind remoteName)) ∧
    (∀ (k : String) (v : Option ExtensionInfo),
      (k, v) ∈ (onOtherExtensionChanged remoteName s).cache ↔
        ((k, v) ∈ s.cache ∧
          ∃ info, v = some info ∧ info.extensionKind = myExtensionKind remoteName)) ∧
    ((onOtherExtensionChanged remoteName s).firedCount = s.firedCount + 1) := by
  have hmy : (onMyExtensionChanged remoteName s).cache =
      clearCacheIf
        (fun c =>
          match c with
          | none => true
          | some info => info.extensionKind == myExtensionKind remoteName)
        s.cache := rfl
  have hoth : (onOtherExtensionChanged remoteName s).cache =
      clearCacheIf
        (fun c =>
          match c with
          | none => true
          | some info => info.extensionKind != myExtensionKind remoteName)
        s.cache := rfl
  refine ⟨?_, ?_, rfl, ?_, ?_, rfl⟩
  · rw [hmy]
    unfold clearCacheIf
    apply List.filter_congr
    intro e _
    rcases e with ⟨k, _ | info⟩ <;> rfl
  · intro k v
    rw [hmy, clearCacheIf_mem]
    rcases v with _ | info
    · simp
    · simp only [Option.some.injEq]
      constructor
      · rintro ⟨hm, hp⟩
        refine ⟨hm, info, rfl, ?_⟩
        intro hk
        simp [hk] at hp
      · rintro ⟨hm, info2, hi, hk⟩
        cases hi
        refine ⟨hm, ?_⟩
        simpa [bne] using hk
  · rw [hoth]
    unfold clearCacheIf
    apply List.filter_congr
    intro e _
    rcases e with ⟨k, _ | info⟩
    · rfl
    · show (!(info.extensionKind != myExtensionKind remoteName))
          = (info.extensionKind == myExtensionKind remoteName)
      cases hk : info.extensionKind == myExtensionKind remoteName <;> simp [bne, hk]
  · intro k v
    rw [hoth, clearCacheIf_mem]
    rcases v with _ | info
    · simp
    · simp only [Option.some.injEq]
      constructor
      · rintro ⟨hm, hp⟩
        refine ⟨hm, info, rfl, ?_⟩
        by_cases hk : info.extensionKind = myExtensionKind remoteName
        · exact hk
        · simp [bne, hk] at hp
      · rintro ⟨hm, info2, hi, hk⟩
        cases hi
        refine ⟨hm, ?_⟩
        simp [bne, hk]

theorem breakAtChar_no_sep (c : Char) (l r : List Char) (h : c ∉ l) :
    (breakAtChar c (l ++ c :: r)).2 = some r := by
  induction l with
  | nil => simp [breakAtChar]
  | cons a as ih =>
    have ha : ¬(a = c) := fun hc => h (hc ▸ List.mem_cons_self a as)
    simp only [List.cons_append, breakAtChar, if_neg ha]
    exact ih (fun hm => h (List.mem_cons_of_mem a hm))

/-- C9: `findPackage` strips the publisher from the extension id and tries
each registry in order; registries failing with a 404 `statusCode` are
skipped, the first registry with the package determines the result, any other
error propagates immediately, and exhausting all registries raises the
cannot-find error naming the bare package name. -/
theorem findPackage_registry_fallback {α : Type} :
    (∀ (pub nm : String), '.' ∉ pub.data →
      stripPublisher (pub ++ "." ++ nm) = nm) ∧
    (∀ (registries : List (String → RegLookupResult α)) (name : String),
      (∀ r ∈ registries, r name = .err (some 404)) →
      findPackageIn registries name = .error (.cannotFind name)) ∧
    (∀ (pre post : List (String → RegLookupResult α)) (rf : String → RegLookupResult α)
        (name : String) (p : α),
      (∀ r ∈ pre, r name = .err (some 404)) → rf name = .found p →
      findPackageIn (pre ++ rf :: post) name = .ok p) ∧
    (∀ (pre post : List (String → RegLookupResult α)) (rf : String → RegLookupResult α)
        (name : String) (c : Option Int),
      (∀ r ∈ pre, r name = .err (some 404)) → rf name = .err c → c ≠ some 404 →
      findPackageIn (pre ++ rf :: post) name = .error (.transport c)) := by
  refine ⟨?_, ?_, ?_, ?_⟩
  · intro pub nm h
    unfold stripPublisher
    have hd : (pub ++ "." ++ nm).data = pub.data ++ '.' :: nm.data := by
      simp [String.data_append]
    rw [hd, breakAtChar_no_sep '.' pub.data nm.data h]
  · intro registries name h
    induction registries with
    | nil => rfl
    | cons r rest ih =>
      have hr : r name = .err (some 404) := h r (List.mem_cons_self r rest)
      simp only [findPackageIn, hr, tryGetPackage]
      exact ih (fun r2 hm => h r2 (List.mem_cons_of_mem r hm))
  · intro pre post rf name p hpre hrf
    induction pre with
    | nil => simp [findPackageIn, tryGetPackage, hrf]
    | cons r rest ih =>
      have hr : r name = .err (some 404) := hpre r (List.mem_cons_self r rest)
      simp only [List.cons_append, findPackageIn, hr, tryGetPackage]
      exact ih (fun r2 hm => hpre r2 (List.mem_cons_of_mem r hm))
  · intro pre post rf name c hpre hrf hc
    induction pre with
    | nil =>
      have h404 : (c == some 404) = false := beq_eq_false_iff_ne.mpr hc
      simp [findPackageIn, tryGetPackage, hrf, h404]
    | cons r rest ih =>
      have hr : r name = .err (some 404) := hpre r (List.mem_cons_self r rest)
      simp only [List.cons_append, findPackageIn, hr, tryGetPackage]
      exact ih (fun r2 hm => hpre r2 (List.mem_cons_of_mem r hm))

/-- Witness for `findPackage_registry_fallback`: with a first registry that
404s on everything and a second that has `bar` at `1.2.3`, looking up
`pub.bar` strips the publisher and returns the second registry's result. -/
theorem findPackage_registry_fallback_witness :
    findPackage
        [fun _ => RegLookupResult.err (some 404),
         fun n => if n = "bar" then .found (⟨1, 2, 3, []⟩ : SemVer) else .err (some 404)]
        "pub.bar"
      = .ok ⟨1, 2, 3, []⟩ := by
  have hstrip : stripPublisher "pub.bar" = "bar" :=
    (findPackage_registry_fallback (α := SemVer)).1 "pub" "bar" (by decide)
  unfold findPackage
  rw [hstrip]
  exact (findPackage_registry_fallback (α := SemVer)).2.2.1
    [fun _ => RegLookupResult.err (some 404)] []
    (fun n => if n = "bar" then .found (⟨1, 2, 3, []⟩ : SemVer) else .err (some 404))
    "bar" ⟨1, 2, 3, []⟩ (by intro r hr; simp at hr; simp [hr]) (by simp)

theorem waitRun_characterization (timeout : Nat) (ev : Option Nat) (n : Nat) :
    waitRun timeout ev n =
      if n ≤ waitDeadline timeout ev then waitInit
      else waitFinished (waitDeadline timeout ev) := by
  induction n with
  | zero => simp [waitRun]
  | succ n ih =>
    have hstep : waitRun timeout ev (n + 1) = waitTick timeout ev n (waitRun timeout ev n) := by
      simp [waitRun, List.range_succ]
    rw [hstep, ih]
    by_cases hn : n + 1 ≤ waitDeadline timeout ev
    · have hn0 : n ≤ waitDeadline timeout ev := by omega
      rw [if_pos hn0, if_pos hn]
      have hev : (ev == some n) = false := by
        rcases ev with _ | e
        · rfl
        · refine beq_eq_false_iff_ne.mpr ?_
          intro h
          cases Option.some.inj h
          simp only [waitDeadline] at hn
          omega
      have ht : (n == timeout) = false := by
        refine beq_eq_false_iff_ne.mpr ?_
        intro h
        subst h
        rcases ev with _ | e <;> simp only [waitDeadline] at hn <;> omega
      simp [waitTick, hev, ht, waitInit]
    · by_cases hn0 : n ≤ waitDeadline timeout ev
      · have hnT : n = waitDeadline timeout ev := by omega
        rw [if_pos hn0, if_neg hn]
        subst hnT
        rcases hev : ev with _ | e
        · have : waitDeadline timeout none = timeout := rfl
          simp [waitTick, waitDeadline, finishedStep, waitInit, waitFinished]
        · by_cases he : e ≤ timeout
          · have hT : waitDeadline timeout (some e) = e := by simp [waitDeadline]; omega
            rw [hT]
            simp [waitTick, finishedStep, waitInit, waitFinished]
          · have hT : waitDeadline timeout (some e) = timeout := by simp [waitDeadline]; omega
            rw [hT]
            have hne : (some e == some timeout) = false := by
              refine beq_eq_false_iff_ne.mpr ?_
              intro h
              cases Option.some.inj h
              omega
            simp [waitTick, hne, finishedStep, waitInit, waitFinished]
      · rw [if_neg hn0, if_neg hn]
        simp [waitTick, waitFinished, finishedStep]

/-- C8: over any horizon beyond the deadline, `waitForExtensionChange`
resolves with exactly the task's result; the wait leg resolves at the first
of the change event and the timeout, so the whole call resolves once both the
task and that instant have passed — in particular, when the event never
fires, at the timeout once the task has completed — and the event listener is
disposed exactly at that first instant, with the subscription released. -/
theorem waitForExtensionChange_timeout_protocol {α : Type} (taskTime : Nat) (taskValue : α)
    (timeout : Nat) (eventTime : Option Nat) (horizon : Nat)
    (hh : waitDeadline timeout eventTime < horizon) :
    ((waitForExtensionChange taskTime taskValue timeout eventTime horizon).1 = taskValue) ∧
    ((waitForExtensionChange taskTime taskValue timeout eventTime horizon).2.1
        = some (max taskTime (waitDeadline timeout eventTime))) ∧
    ((waitRun timeout eventTime horizon).disposeTime
        = some (waitDeadline timeout eventTime)) ∧
    ((waitRun timeout eventTime horizon).listenerAttached = false) ∧
    (eventTime = none →
      (waitForExtensionChange taskTime taskValue timeout eventTime horizon).2.1
        = some (max taskTime timeout)) := by
  have hrun : waitRun timeout eventTime horizon
      = waitFinished (waitDeadline timeout eventTime) := by
    rw [waitRun_characterization, if_neg (by omega)]
  refine ⟨rfl, ?_, ?_, ?_, ?_⟩
  · simp [waitForExtensionChange, hrun, waitFinished]
  · simp [hrun, waitFinished]
  · simp [hrun, waitFinished]
  · intro hev
    subst hev
    simp [waitForExtensionChange, hrun, waitFinished, waitDeadline]

/-- Witness for `waitForExtensionChange_timeout_protocol`: timeout 100, no
event, horizon 101, task finishing at 150 with result 42. -/
theorem waitForExtensionChange_timeout_protocol_witness :
    (waitForExtensionChange 150 (42 : Nat) 100 none 101).1 = 42 ∧
    (waitForExtensionChange 150 (42 : Nat) 100 none 101).2.1 = some (max 150 100) ∧
    (waitRun 100 none 101).disposeTime = some 100 := by
  have h := waitForExtensionChange_timeout_protocol 150 (42 : Nat) 100 none 101 (by decide)
  exact ⟨h.1, h.2.1, h.2.2.1⟩

set_option maxRecDepth 4096 in
/-- C5, counterexample: with pagination enabled and a server that always
returns pages of size 3 (which does not divide 1000), the enumeration does
terminate and does warn, but aggregates 1002 results, not "exactly 1000". -/
theorem findMatchingPackages_cap_overshoot :
    (findMatchingPackages (fun _ => List.replicate 3 ()) true).results.length = 1002 ∧
    (findMatchingPackages (fun _ => List.replicate 3 ()) true).results.length ≠ 1000 ∧
    tooManyResultsWarning (findMatchingPackages (fun _ => List.replicate 3 ()) true) = true := by
  refine ⟨by decide, by decide, by decide⟩

theorem findMatchingPackagesLoop_const_pages {α : Type} (L : Nat) (hL : 0 < L)
    (server : Nat → List α) (hs : ∀ f, (server f).length = L) :
    ∀ (fuel fromOffset : Nat), fromOffset < MAX_RESULTS + L → MAX_RESULTS ≤ fuel + fromOffset →
      ((findMatchingPackagesLoop server true fuel fromOffset).finalFrom
          = fromOffset + (findMatchingPackagesLoop server true fuel fromOffset).results.length) ∧
      (L ∣ (findMatchingPackagesLoop server true fuel fromOffset).results.length) ∧
      (MAX_RESULTS ≤ (findMatchingPackagesLoop server true fuel fromOffset).finalFrom) ∧
      ((findMatchingPackagesLoop server true fuel fromOffset).finalFrom < MAX_RESULTS + L) := by
  intro fuel
  induction fuel with
  | zero =>
    intro fromOffset h1 h2
    refine ⟨by simp [findMatchingPackagesLoop], by simp [findMatchingPackagesLoop], ?_, ?_⟩
    · simpa [findMatchingPackagesLoop] using by omega
    · simpa [findMatchingPackagesLoop] using h1
  | succ fuel ih =>
    intro fromOffset h1 h2
    by_cases hf : fromOffset < MAX_RESULTS
    · have hlen : (server fromOffset).length = L := hs fromOffset
      have hcond : (decide ((server fromOffset).length = 0) || !true) = false := by
        rw [hlen]
        simp
        omega
      simp only [findMatchingPackagesLoop, if_pos hf, hcond, Bool.false_eq_true, if_false]
      obtain ⟨ih1, ⟨k, ihk⟩, ih3, ih4⟩ :=
        ih (fromOffset + (server fromOffset).length) (by rw [hlen]; omega) (by rw [hlen]; omega)
      refine ⟨?_, ⟨k + 1, ?_⟩, ih3, ih4⟩
      · rw [List.length_append]
        omega
      · rw [hlen] at ihk
        rw [List.length_append, hlen, ihk]
        ring
    · refine ⟨by simp [findMatchingPackagesLoop, if_neg hf],
        by simp [findMatchingPackagesLoop, if_neg hf], ?_, ?_⟩
      · simpa [findMatchingPackagesLoop, if_neg hf] using by omega
      · simpa [findMatchingPackagesLoop, if_neg hf] using h1

/-- C5, amended: with pagination enabled and a server returning non-empty
pages of a fixed size indefinitely, the enumeration terminates with at least
1000 and fewer than 1000 + pagesize aggregated results, always a multiple of
the page size (so exactly 1000 only when the page size divides 1000, as the
default limit 20 does), and the too-many-results warning fires; a page of
zero results, at any offset the loop reaches below the cap, ends the loop at
that point with that single request and without the warning (in particular an
empty first page ends the whole enumeration immediately); with pagination
disabled exactly one search request is made. -/
theorem findMatchingPackages_pagination_bounds {α : Type} (L : Nat) (hL : 0 < L)
    (server : Nat → List α) (hs : ∀ f, (server f).length = L) :
    (MAX_RESULTS ≤ (findMatchingPackages server true).results.length ∧
      (findMatchingPackages server true).results.length < MAX_RESULTS + L ∧
      L ∣ (findMatchingPackages server true).results.length ∧
      tooManyResultsWarning (findMatchingPackages server true) = true) ∧
    (∀ (server2 : Nat → List α) (fuel fromOffset : Nat),
      0 < fuel → fromOffset < MAX_RESULTS → (server2 fromOffset).length = 0 →
      findMatchingPackagesLoop server2 true fuel fromOffset
          = ⟨server2 fromOffset, fromOffset, 1⟩ ∧
      tooManyResultsWarning (findMatchingPackagesLoop server2 true fuel fromOffset) = false) ∧
    (∀ server2 : Nat → List α, (server2 0).length = 0 →
      findMatchingPackages server2 true = ⟨server2 0, 0, 1⟩ ∧
      tooManyResultsWarning (findMatchingPackages server2 true) = false) ∧
    (∀ server3 : Nat → List α, (findMatchingPackages server3 false).requests = 1) := by
  have hone : ∀ (sv : Nat → List α) (pag : Bool) (fuel fromOffset : Nat),
      findMatchingPackagesLoop sv pag (fuel + 1) fromOffset
        = if fromOffset < MAX_RESULTS then
            if (sv fromOffset).length = 0 || !pag then ⟨sv fromOffset, fromOffset, 1⟩
            else
              ⟨sv fromOffset
                  ++ (findMatchingPackagesLoop sv pag fuel
                      (fromOffset + (sv fromOffset).length)).results,
                (findMatchingPackagesLoop sv pag fuel
                    (fromOffset + (sv fromOffset).length)).finalFrom,
                (findMatchingPackagesLoop sv pag fuel
                    (fromOffset + (sv fromOffset).length)).requests + 1⟩
          else ⟨[], fromOffset, 0⟩ := fun _ _ _ _ => rfl
  refine ⟨?_, ?_, ?_, ?_⟩
  · obtain ⟨e1, e2, e3, e4⟩ :=
      findMatchingPackagesLoop_const_pages L hL server hs MAX_RESULTS 0 (by omega) (by omega)
    have hlen : (findMatchingPackages server true).results.length
        = (findMatchingPackages server true).finalFrom := by
      rw [show findMatchingPackages server true
        = findMatchingPackagesLoop server true MAX_RESULTS 0 from rfl]
      omega
    refine ⟨?_, ?_, ?_, ?_⟩
    · rw [hlen]
      exact e3
    · rw [hlen]
      exact e4
    · rw [show findMatchingPackages server true
        = findMatchingPackagesLoop server true MAX_RESULTS 0 from rfl]
      exact e2
    · have : tooManyResultsWarning (findMatchingPackages server true)
          = decide (MAX_RESULTS ≤ (findMatchingPackages server true).finalFrom) := rfl
      rw [this, decide_eq_true_eq]
      exact e3
  · intro server2 fuel fromOffset hfuel hf h0
    obtain ⟨f, rfl⟩ : ∃ f, fuel = f + 1 := ⟨fuel - 1, by omega⟩
    have hf1000 : fromOffset < 1000 := hf
    have heq : findMatchingPackagesLoop server2 true (f + 1) fromOffset
        = ⟨server2 fromOffset, fromOffset, 1⟩ := by
      rw [hone, if_pos hf]
      simp [h0]
    refine ⟨heq, ?_⟩
    rw [heq]
    show decide ((1000 : Nat) ≤ fromOffset) = false
    exact decide_eq_false (by omega)
  · intro server2 h2
    have hrw : findMatchingPackages server2 true = ⟨server2 0, 0, 1⟩ := by
      rw [show findMatchingPackages server2 true
          = findMatchingPackagesLoop server2 true (999 + 1) 0 from rfl, hone]
      simp [h2, MAX_RESULTS]
    refine ⟨hrw, ?_⟩
    rw [hrw]
    rfl
  · intro server3
    rw [show findMatchingPackages server3 false
        = findMatchingPackagesLoop server3 false (999 + 1) 0 from rfl, hone]
    by_cases h0 : (server3 0).length = 0 <;> simp [h0, MAX_RESULTS]

/-- Witness for `findMatchingPackages_pagination_bounds` at page size 3,
also exercising the zero-page clause at the mid-run offset 500. -/
theorem findMatchingPackages_pagination_bounds_witness :
    0 < 3 ∧
    MAX_RESULTS ≤ (findMatchingPackages (fun _ => List.replicate 3 0) true).results.length ∧
    tooManyResultsWarning (findMatchingPackages (fun _ => List.replicate 3 0) true) = true ∧
    findMatchingPackagesLoop (fun _ => ([] : List Nat)) true 1000 500 = ⟨[], 500, 1⟩ ∧
    tooManyResultsWarning (findMatchingPackagesLoop (fun _ => ([] : List Nat)) true 1000 500)
      = false := by
  have h := findMatchingPackages_pagination_bounds 3 (by decide)
    (fun _ => List.replicate 3 (0 : Nat)) (fun f => by simp)
  have hz := h.2.1 (fun _ => ([] : List Nat)) 1000 500 (by decide) (by decide) rfl
  exact ⟨by decide, h.1.1, h.1.2.2.2, hz.1, hz.2⟩

theorem registryEquals_eq (a b : Registry) :
    Registry.equals a b
      = ((a.enablePagination == b.enablePagination)
          && (queryJoin a.query == queryJoin b.query) && (a.uri == b.uri)) := by
  unfold Registry.equals queryEquals
  by_cases hp : a.enablePagination = b.enablePagination
  · by_cases hq : queryJoin a.query = queryJoin b.query
    · cases ha : a.uri <;> cases hb : b.uri <;> simp [hp, hq, bne]
    · have h2 : (queryJoin a.query == queryJoin b.query) = false := beq_eq_false_iff_ne.mpr hq
      simp [hp, h2, bne]
  · have h1 : (a.enablePagination == b.enablePagination) = false := beq_eq_false_iff_ne.mpr hp
    simp [h1, bne]

theorem registryEquals_true_iff (a b : Registry) :
    Registry.equals a b = true ↔
      (a.enablePagination = b.enablePagination ∧ queryJoin a.query = queryJoin b.query ∧
        a.uri = b.uri) := by
  rw [registryEquals_eq]
  simp [and_assoc]

theorem registryEquals_symm (a b : Registry) :
    Registry.equals a b = Registry.equals b a := by
  cases hab : Registry.equals a b <;> cases hba : Registry.equals b a <;> try rfl
  · obtain ⟨h1, h2, h3⟩ := (registryEquals_true_iff b a).mp hba
    rw [← (registryEquals_true_iff a b).mpr ⟨h1.symm, h2.symm, h3.symm⟩, hab]
  · obtain ⟨h1, h2, h3⟩ := (registryEquals_true_iff a b).mp hab
    rw [← (registryEquals_true_iff b a).mpr ⟨h1.symm, h2.symm, h3.symm⟩, hba]

theorem dedupeRegistries_go (l acc : List Registry) :
    List.foldl
        (fun list item =>
          if (list.find? (fun other => item.equals other)).isSome then list else list ++ [item])
        acc l
      = acc ++ keepFirstOccurrences
          (l.filter (fun y => (acc.find? (fun other => Registry.equals y other)).isNone)) := by
  induction l generalizing acc with
  | nil => simp [keepFirstOccurrences]
  | cons x xs ih =>
    rw [List.foldl_cons, List.filter_cons]
    rcases hfind : acc.find? (fun other => Registry.equals x other) with _ | z
    · simp only [Option.isSome_none, Bool.false_eq_true, if_false, Option.isNone_none, if_true]
      rw [ih]
      simp only [keepFirstOccurrences, List.filter_filter]
      have hfun : ∀ y ∈ xs,
          (((acc ++ [x]).find? (fun other => Registry.equals y other)).isNone)
            = ((!Registry.equals y x)
                && (acc.find? (fun other => Registry.equals y other)).isNone) := by
        intro y _
        rw [List.find?_append]
        rcases hfa : acc.find? (fun other => Registry.equals y other) with _ | w
        · cases hq : Registry.equals y x
          · simp [List.find?, hq]
          · simp [List.find?, hq]
        · simp [Option.or_some]
      rw [List.filter_congr hfun]
      simp
    · simp only [Option.isSome_some, if_true, Option.isNone_some, Bool.false_eq_true, if_false]
      exact ih acc

theorem dedupeRegistries_eq_keepFirst (l : List Registry) :
    dedupeRegistries l = keepFirstOccurrences l := by
  unfold dedupeRegistries
  rw [dedupeRegistries_go]
  have : l.filter (fun y => (([] : List Registry).find?
      (fun other => Registry.equals y other)).isNone) = l := by
    apply List.filter_eq_self.mpr
    intro a _
    rfl
  rw [this, List.nil_append]

theorem keepFirstOccurrences_subset (l : List Registry) :
    ∀ x ∈ keepFirstOccurrences l, x ∈ l := by
  induction l using keepFirstOccurrences.induct with
  | case1 => intro x hx; simp [keepFirstOccurrences] at hx
  | case2 a as ih =>
    intro x hx
    simp only [keepFirstOccurrences, List.mem_cons] at hx
    rcases hx with hx | hx
    · exact hx ▸ List.mem_cons_self a as
    · exact List.mem_cons_of_mem a (List.mem_of_mem_filter (ih x hx))

theorem keepFirstOccurrences_pairwise (l : List Registry) :
    (keepFirstOccurrences l).Pairwise
      (fun a b => Registry.equals a b = false ∧ Registry.equals b a = false) := by
  induction l using keepFirstOccurrences.induct with
  | case1 => simp [keepFirstOccurrences]
  | case2 a as ih =>
    simp only [keepFirstOccurrences]
    refine List.Pairwise.cons ?_ ih
    intro y hy
    have hmem := keepFirstOccurrences_subset _ y hy
    have hne : (Registry.equals y a) = false := by
      have := (List.mem_filter.mp hmem).2
      simpa using this
    exact ⟨by rw [registryEquals_symm]; exact hne, hne⟩

/-- C6: `getRegistries` never returns two mutually `Registry.equals` entries,
and it returns exactly the first occurrence of every `Registry.equals` class
in the concatenation of the workspace-folder registries (in folder order)
followed by the user registries — so a workspace registry shadows an equal
user-defined one. -/
theorem getRegistries_dedup_first_occurrence (folderRegistries : List (List Registry))
    (userRegistries : List Registry) :
    RegistryProvider.getRegistries folderRegistries userRegistries
        = keepFirstOccurrences (folderRegistries.flatten ++ userRegistries) ∧
    (RegistryProvider.getRegistries folderRegistries userRegistries).Pairwise
      (fun a b => Registry.equals a b = false ∧ Registry.equals b a = false) := by
  constructor
  · exact dedupeRegistries_eq_keepFirst _
  · rw [RegistryProvider.getRegistries, dedupeRegistries_eq_keepFirst]
    exact keepFirstOccurrences_pairwise _
